import Mathlib

/-!
# CBWPPS — Plate–Wine Pairing System: a verification development

Shallow embedding of the web UI JavaScript (`web_ui/js/validation.js`,
`web_ui/js/api.js`) and of the flavor-compound pairing, similarity and
ranking engine described in the system specification. The Python engine
modules (`processing.py`, `core/pairing_engine.py`, `core/wine_similarity.py`,
`core/wine_manager.py`) are referenced by the repository's README but are
not among the staged sources, so those components are modelled from the
specification's words; each such definition says so in its doc comment.
-/

namespace CBWPPS

/-! ## File validation (`web_ui/js/validation.js`, lines 6–74) -/

/-- A browser `File` as the validation code reads it: a name and a size in
bytes. -/
structure JSFile where
  name : String
  size : Nat
  deriving DecidableEq, Repr

/-- `MAX_FILE_SIZE = 10 * 1024 * 1024` (10MB). -/
def MAX_FILE_SIZE : Nat := 10 * 1024 * 1024

/-- `ALLOWED_EXTENSIONS` from `validation.js`. -/
def ALLOWED_EXTENSIONS : List String :=
  [".pdf", ".txt", ".jpg", ".jpeg", ".png", ".xlsx", ".csv", ".json"]

/-- JavaScript `filename.split('.')` specialised to the dot separator,
over the character sequence of the string: `"a.b"` ↦ `["a", "b"]`,
`"abc"` ↦ `["abc"]`, `""` ↦ `[""]`, `"a."` ↦ `["a", ""]`. -/
def splitOnDot : List Char → List (List Char)
  | [] => [[]]
  | c :: cs =>
    if c = '.' then [] :: splitOnDot cs
    else
      match splitOnDot cs with
      | [] => [[c]]
      | p :: ps => (c :: p) :: ps

/-- `getFileExtension` from `validation.js`: the name is split on dots;
when there is more than one part the extension is `'.'` followed by the
lowercased last part, otherwise the empty string. -/
def getFileExtension (filename : String) : String :=
  let parts := splitOnDot filename.toList
  if parts.length > 1 then
    String.mk ('.' :: (parts.getLast?.getD []).map Char.toLower)
  else ""

/-- The record `{valid, error, file}` that `validateFile` returns (the
error strings are abbreviated: the claims only use their presence). -/
structure ValidationResult where
  valid : Bool
  error : Option String
  file : Option JSFile
  deriving DecidableEq, Repr

/-- `validateFile` from `validation.js`: absent file, unsupported
extension, over-large file and empty file are rejected in that order;
everything else is accepted. -/
def validateFile (file : Option JSFile) : ValidationResult :=
  match file with
  | none => { valid := false, error := some "No file provided", file := none }
  | some f =>
    let extension := getFileExtension f.name
    if extension ∈ ALLOWED_EXTENSIONS then
      if f.size > MAX_FILE_SIZE then
        { valid := false
          error := some ("File " ++ f.name ++ " exceeds maximum size")
          file := some f }
      else if f.size = 0 then
        { valid := false
          error := some ("File " ++ f.name ++ " is empty")
          file := some f }
      else
        { valid := true, error := none, file := some f }
    else
      { valid := false
        error := some ("File type " ++ extension ++ " is not supported")
        file := some f }

/-- A dot-free character list is returned whole by `splitOnDot`. -/
theorem splitOnDot_of_not_mem (cs : List Char) (h : '.' ∉ cs) :
    splitOnDot cs = [cs] := by
  induction cs with
  | nil => rfl
  | cons c cs ih =>
    have hc : ¬ c = '.' := fun hc => h (hc ▸ List.mem_cons_self c cs)
    have hcs : '.' ∉ cs := fun hm => h (List.mem_cons_of_mem c hm)
    simp only [splitOnDot, if_neg hc, ih hcs]

/-- C5: `validateFile` accepts exactly the present files whose lowercased
last-dot extension is one of the eight allowed ones and whose size is in
(0, 10·1024·1024]; every rejection carries a non-null error message; and
a name containing no dot yields the empty extension and is rejected. -/
theorem validateFile_spec (file : Option JSFile) :
    ((validateFile file).valid = true ↔
      ∃ f, file = some f ∧ getFileExtension f.name ∈ ALLOWED_EXTENSIONS ∧
        0 < f.size ∧ f.size ≤ MAX_FILE_SIZE) ∧
    ((validateFile file).valid = false → (validateFile file).error ≠ none) ∧
    (∀ f, file = some f → '.' ∉ f.name.toList →
      getFileExtension f.name = "" ∧ (validateFile file).valid = false) := by
  refine ⟨?_, ?_, ?_⟩
  · cases file with
    | none => simp [validateFile]
    | some f =>
      by_cases hext : getFileExtension f.name ∈ ALLOWED_EXTENSIONS
      · by_cases hbig : f.size > MAX_FILE_SIZE
        · simp only [validateFile, if_pos hext, if_pos hbig]
          constructor
          · intro h; exact absurd h (by simp)
          · rintro ⟨g, hg, _, _, hle⟩
            cases Option.some.inj hg
            omega
        · by_cases hzero : f.size = 0
          · simp only [validateFile, if_pos hext, if_neg hbig, if_pos hzero]
            constructor
            · intro h; exact absurd h (by simp)
            · rintro ⟨g, hg, _, hpos, _⟩
              cases Option.some.inj hg
              omega
          · simp only [validateFile, if_pos hext, if_neg hbig, if_neg hzero]
            refine ⟨fun _ => ⟨f, rfl, hext, by omega, by omega⟩, fun _ => by simp⟩
      · simp only [validateFile, if_neg hext]
        constructor
        · intro h; exact absurd h (by simp)
        · rintro ⟨g, hg, hmem, _, _⟩
          cases Option.some.inj hg
          exact absurd hmem hext
  · cases file with
    | none => simp [validateFile]
    | some f =>
      by_cases hext : getFileExtension f.name ∈ ALLOWED_EXTENSIONS
      · by_cases hbig : f.size > MAX_FILE_SIZE
        · simp [validateFile, if_pos hext, if_pos hbig]
        · by_cases hzero : f.size = 0
          · simp [validateFile, if_pos hext, if_neg hbig, if_pos hzero]
          · simp [validateFile, if_pos hext, if_neg hbig, if_neg hzero]
      · simp [validateFile, if_neg hext]
  · rintro f rfl hnodot
    have hsplit : splitOnDot f.name.data = [f.name.data] :=
      splitOnDot_of_not_mem _ hnodot
    have hext : getFileExtension f.name = "" := by
      simp [getFileExtension, hsplit]
    refine ⟨hext, ?_⟩
    have hmem : getFileExtension f.name ∉ ALLOWED_EXTENSIONS := by
      rw [hext]; decide
    simp [validateFile, if_neg hmem]

/-! ## Saved-report storage (`web_ui/js/utils.js`, lines 1040–1170) -/

/-- A saved report as `utils.js` stores it: an identifier and its `savedAt`
timestamp (milliseconds since the epoch, so `new Date(savedAt)`
comparisons are numeric comparisons). -/
structure StoredReport where
  id : String
  savedAt : Nat
  deriving DecidableEq, Repr

/-- The comparator `(a, b) => new Date(b.savedAt) - new Date(a.savedAt)`
passed to `reports.sort`: `a` sorts no later than `b` exactly when
`b.savedAt ≤ a.savedAt` (newest first). -/
def newestFirst (a b : StoredReport) : Prop := b.savedAt ≤ a.savedAt

instance : DecidableRel newestFirst := fun _ _ => Nat.decLe _ _

instance : IsTotal StoredReport newestFirst :=
  ⟨fun a b => Nat.le_total b.savedAt a.savedAt⟩

instance : IsTrans StoredReport newestFirst :=
  ⟨fun _ _ _ h1 h2 => Nat.le_trans h2 h1⟩

/-- `clearOldReports` from `utils.js`: when the stored list has at most
`keepCount` reports it returns 0 and leaves storage untouched; otherwise
it sorts newest first, stores the first `keepCount` and returns how many
were dropped. The result is (returned count, stored list afterwards). -/
def clearOldReports (keepCount : Nat) (reports : List StoredReport) :
    Nat × List StoredReport :=
  if reports.length ≤ keepCount then (0, reports)
  else
    let sorted := List.insertionSort newestFirst reports
    (reports.length - keepCount, sorted.take keepCount)

/-- C10: `clearOldReports` leaves `min keepCount |reports|` reports — a
sub-multiset of the originals in which every kept report is at least as
recent as every removed one — returns the number removed, and is the
identity (returning 0) when the list already has at most `keepCount`
reports. -/
theorem clearOldReports_spec (keepCount : Nat) (reports : List StoredReport) :
    ((clearOldReports keepCount reports).2.length = min keepCount reports.length) ∧
    ((clearOldReports keepCount reports).1 =
      reports.length - (clearOldReports keepCount reports).2.length) ∧
    (∃ removed, reports.Perm ((clearOldReports keepCount reports).2 ++ removed) ∧
      ∀ kept ∈ (clearOldReports keepCount reports).2, ∀ r ∈ removed,
        r.savedAt ≤ kept.savedAt) ∧
    (reports.length ≤ keepCount →
      (clearOldReports keepCount reports).1 = 0 ∧
      (clearOldReports keepCount reports).2 = reports) := by
  by_cases hle : reports.length ≤ keepCount
  · simp only [clearOldReports, if_pos hle]
    refine ⟨by omega, by omega, ⟨[], by simp, by simp⟩, fun _ => by simp⟩
  · have hperm : (List.insertionSort newestFirst reports).Perm reports :=
      List.perm_insertionSort newestFirst reports
    have hlen : (List.insertionSort newestFirst reports).length = reports.length :=
      hperm.length_eq
    have hsorted : List.Sorted newestFirst (List.insertionSort newestFirst reports) :=
      List.sorted_insertionSort newestFirst reports
    simp only [clearOldReports, if_neg hle]
    refine ⟨?_, ?_, ?_, fun h => absurd h hle⟩
    · simp [List.length_take, hlen]
    · simp only [List.length_take, hlen]
      omega
    · refine ⟨(List.insertionSort newestFirst reports).drop keepCount, ?_, ?_⟩
      · calc reports.Perm (List.insertionSort newestFirst reports) := hperm.symm
          _ = (List.insertionSort newestFirst reports).take keepCount ++
                (List.insertionSort newestFirst reports).drop keepCount :=
            (List.take_append_drop keepCount _).symm
      · intro kept hkept r hr
        exact hsorted.rel_of_mem_take_of_mem_drop hkept hr

/-! ## API retry logic (`web_ui/js/api.js`, lines 7–53) -/

/-- `MAX_RETRIES = 3` from `api.js`. -/
def MAX_RETRIES : Nat := 3

/-- One round of `apiRequest`'s try block: `fetch` succeeded and the ok
response's JSON is `value`; the response was non-ok, making the code
throw an `Error` with the given message (`errorData.detail` or
`HTTP status: statusText`); or `fetch` itself threw. Both error forms
land in the same `catch` block. -/
inductive AttemptOutcome where
  | ok (value : String)
  | httpError (message : String)
  | fetchThrew (message : String)
  deriving DecidableEq, Repr

/-- `error.message.includes('fetch') || error.message.includes('network')`:
the retry condition of `apiRequest`'s catch block. -/
def isRetryableMessage (message : String) : Bool :=
  decide ("fetch".toList <:+: message.toList) ||
    decide ("network".toList <:+: message.toList)

/-- `apiRequest` from `api.js`, run against the sequence of outcomes the
network produces, carrying the `retries` counter; the second component
counts the attempts actually made. The caught error — whether thrown by
`fetch` or constructed from a non-ok HTTP response — is retried when
retry budget remains and its message contains `'fetch'` or `'network'`,
and is rethrown otherwise. -/
def apiRequestRun : Nat → List AttemptOutcome → Except String String × Nat
  | _, [] => (Except.error "no response", 0)
  | _, AttemptOutcome.ok v :: _ => (Except.ok v, 1)
  | 0, AttemptOutcome.httpError m :: _ => (Except.error m, 1)
  | 0, AttemptOutcome.fetchThrew m :: _ => (Except.error m, 1)
  | retries + 1, AttemptOutcome.httpError m :: rest =>
    if isRetryableMessage m then
      let r := apiRequestRun retries rest
      (r.1, r.2 + 1)
    else (Except.error m, 1)
  | retries + 1, AttemptOutcome.fetchThrew m :: rest =>
    if isRetryableMessage m then
      let r := apiRequestRun retries rest
      (r.1, r.2 + 1)
    else (Except.error m, 1)

/-- C6 counterexample: a non-ok HTTP response whose error message contains
`'network'` IS retried — the error it throws is caught by the same catch
block as fetch errors, the retry condition matches, and the second
attempt succeeds after two attempts — contradicting "an HTTP non-ok
response ... is thrown to the caller without retrying". -/
theorem apiRequest_http_error_retried :
    apiRequestRun MAX_RETRIES
      [AttemptOutcome.httpError "network unreachable", AttemptOutcome.ok "data"]
      = (Except.ok "data", 2) := by
  rfl

/-- C6 (amended): `apiRequest` makes at most `retries + 1` attempts (four
with `MAX_RETRIES = 3`); an error outcome — whether a thrown fetch error
or a non-ok HTTP response — is retried exactly when budget remains and
its message contains `'fetch'` or `'network'`, and otherwise propagates
immediately after a single attempt. -/
theorem apiRequest_retry_policy (retries : Nat) (outcomes : List AttemptOutcome) :
    ((apiRequestRun retries outcomes).2 ≤ retries + 1) ∧
    (∀ m rest, (outcomes = AttemptOutcome.httpError m :: rest ∨
        outcomes = AttemptOutcome.fetchThrew m :: rest) →
      (isRetryableMessage m = false →
        apiRequestRun retries outcomes = (Except.error m, 1)) ∧
      (retries = 0 → apiRequestRun retries outcomes = (Except.error m, 1)) ∧
      (isRetryableMessage m = true → 0 < retries →
        apiRequestRun retries outcomes =
          ((apiRequestRun (retries - 1) rest).1,
            (apiRequestRun (retries - 1) rest).2 + 1))) := by
  constructor
  · induction outcomes generalizing retries with
    | nil => simp [apiRequestRun]
    | cons a rest ih =>
      cases a with
      | ok v => simp [apiRequestRun]
      | httpError m =>
        cases retries with
        | zero => simp [apiRequestRun]
        | succ n =>
          by_cases hm : isRetryableMessage m
          · simp only [apiRequestRun, if_pos hm]
            have := ih n
            omega
          · simp [apiRequestRun, if_neg hm]
      | fetchThrew m =>
        cases retries with
        | zero => simp [apiRequestRun]
        | succ n =>
          by_cases hm : isRetryableMessage m
          · simp only [apiRequestRun, if_pos hm]
            have := ih n
            omega
          · simp [apiRequestRun, if_neg hm]
  · rintro m rest (rfl | rfl) <;>
    · refine ⟨fun hm => ?_, fun hz => ?_, fun hm hpos => ?_⟩
      · cases retries with
        | zero => simp [apiRequestRun]
        | succ n => simp [apiRequestRun, hm]
      · subst hz
        simp [apiRequestRun]
      · cases retries with
        | zero => omega
        | succ n => simp [apiRequestRun, hm]

/-! ## Report-creation workflow and cancellation
(`web_ui/js/report.js` lines 535–583 and `web_ui/js/progress.js` in the
staged `validation.js` bundle) -/

/-- The `ProgressTracker` fields the workflow logic reads and writes:
`currentStep` and `cancelled` (`progress.js`). -/
structure TrackerState where
  currentStep : Nat
  cancelled : Bool
  deriving DecidableEq, Repr

/-- `ProgressTracker.nextStep`: returns immediately once `cancelled` is
set, otherwise advances `currentStep` (the step-label bookkeeping only
affects the display). -/
def trackerNextStep (t : TrackerState) : TrackerState :=
  if t.cancelled then t else { t with currentStep := t.currentStep + 1 }

/-- `ProgressTracker.cancel` after the user confirms the dialog: sets
`cancelled` (and invokes the cancel callback, which `continueWithPairing`
never registers). -/
def trackerCancel (t : TrackerState) : TrackerState :=
  { t with cancelled := true }

/-- `ProgressTracker.reset`: clears the step counter and the cancelled
flag. -/
def trackerReset (_t : TrackerState) : TrackerState :=
  { currentStep := 0, cancelled := false }

/-- The four backend calls `continueWithPairing` awaits, in order. -/
inductive EngineCall where
  | analyzeSimilarity
  | pairWines
  | rankWines
  | generateReport
  deriving DecidableEq, Repr

/-- The fields of the global `reportState` that `continueWithPairing`
writes (`true` = the field was assigned the call's result). -/
structure PairingReportState where
  similarPairs : Bool
  pairings : Bool
  rankings : Bool
  report : Bool
  deriving DecidableEq, Repr

/-- What one run of `continueWithPairing` leaves behind: the tracker, the
`reportState` fields, the backend calls issued in order, and whether the
final report was persisted to `sessionStorage`. -/
structure PairingRun where
  tracker : TrackerState
  state : PairingReportState
  calls : List EngineCall
  storedInSession : Bool
  deriving DecidableEq, Repr

/-- `continueWithPairing` from `report.js`: the tracker is reset, then a
user-initiated, confirmed `cancel()` may land between any two statements
(`cancelAt i` = a cancel signal arrives before the i-th `nextStep`). The
function calls `nextStep` and awaits each backend call unconditionally —
no statement inspects `cancelled` or `isCancelled()` — stores each result
into `reportState`, and finally persists the report to `sessionStorage`
and navigates to the preview page. -/
def continueWithPairing (cancelAt : Nat → Bool) (t0 : TrackerState) : PairingRun :=
  let t := trackerReset t0
  let t := if cancelAt 0 then trackerCancel t else t
  let t := trackerNextStep t
  let calls := [EngineCall.analyzeSimilarity]
  let t := if cancelAt 1 then trackerCancel t else t
  let t := trackerNextStep t
  let calls := calls ++ [EngineCall.pairWines]
  let t := if cancelAt 2 then trackerCancel t else t
  let t := trackerNextStep t
  let calls := calls ++ [EngineCall.rankWines]
  let t := if cancelAt 3 then trackerCancel t else t
  let t := trackerNextStep t
  let calls := calls ++ [EngineCall.generateReport]
  let t := if cancelAt 4 then trackerCancel t else t
  let t := trackerNextStep t
  { tracker := t
    state := { similarPairs := true, pairings := true, rankings := true, report := true }
    calls := calls
    storedInSession := true }

/-- C1: evaluating `continueWithPairing` on the run where cancellation is
confirmed after the similarity step and before the pairing step — the
tracker ends cancelled, yet `pairWines`, `rankWines` and `generateReport`
are still issued, every `reportState` field is written, and the report is
persisted to `sessionStorage`: the cancellation signal never aborts the
workflow and partial results are kept, contradicting the claim. -/
theorem continueWithPairing_ignores_cancellation :
    (continueWithPairing (fun i => decide (i = 1)) ⟨0, false⟩).tracker.cancelled
        = true ∧
    (continueWithPairing (fun i => decide (i = 1)) ⟨0, false⟩).calls =
      [EngineCall.analyzeSimilarity, EngineCall.pairWines,
        EngineCall.rankWines, EngineCall.generateReport] ∧
    (continueWithPairing (fun i => decide (i = 1)) ⟨0, false⟩).state =
      ⟨true, true, true, true⟩ ∧
    (continueWithPairing (fun i => decide (i = 1)) ⟨0, false⟩).storedInSession
        = true :=
  ⟨rfl, rfl, rfl, rfl⟩

/-! ## The pairing engine's data model

Modelled from the spec: the Python engine modules (`processing.py`,
`core/*.py`) are listed in the repository's README but are not among the
staged sources, so the engine's data model and operations below follow the
specification (§3, §4) literally. -/

/-- Modelled from the spec: the engine's `Wine` record (§3) — identifier,
name, four normalized attributes on the 1–5 scale, and the derived set of
compound identifiers (union over the grape varieties' compound sets). -/
structure Wine where
  id : String
  name : String
  body : Nat
  acidity : Nat
  tannin : Nat
  sweetness : Nat
  compounds : Finset String
  deriving DecidableEq

/-- Modelled from the spec: `DishProfile` (§3) — the dish name and the
resolved compound set (the raw ingredient list does not affect the claims
below). -/
structure DishProfile where
  name : String
  compounds : Finset String
  deriving DecidableEq

/-- The wine's four normalized attributes all lie on the 1–5 scale. -/
def attrsInRange (w : Wine) : Prop :=
  1 ≤ w.body ∧ w.body ≤ 5 ∧ 1 ≤ w.acidity ∧ w.acidity ≤ 5 ∧
    1 ≤ w.tannin ∧ w.tannin ≤ 5 ∧ 1 ≤ w.sweetness ∧ w.sweetness ≤ 5

instance (w : Wine) : Decidable (attrsInRange w) := by
  unfold attrsInRange
  infer_instance

/-! ## Compound Bridge Builder (spec §4.1, §7) -/

/-- Modelled from the spec: a raw attribute value from a source dataset
(§4.1) — numeric on the documented 0–100 source scale, a categorical
string, or missing. -/
inductive RawAttr where
  | missing
  | numeric (v : Int)
  | category (s : String)
  deriving DecidableEq, Repr

/-- Modelled from the spec (§4.1): the lookup table for categorical
attribute strings; names outside the table are unmappable. -/
def categoryScale : List (String × Nat) :=
  [("very low", 1), ("low", 2), ("medium", 3), ("high", 4), ("very high", 5)]

/-- Modelled from the spec (§4.1): normalization of a raw attribute to an
integer on the 1–5 scale — a fixed linear mapping for the 0–100 numeric
source scale, a lookup for categorical strings; missing or unmappable
values resolve to the documented neutral default 3. -/
def normalizeAttr : RawAttr → Nat
  | RawAttr.missing => 3
  | RawAttr.numeric v =>
    if 0 ≤ v ∧ v ≤ 100 then 1 + v.toNat * 4 / 100 else 3
  | RawAttr.category s =>
    match categoryScale.lookup s with
    | some n => n
    | none => 3

/-- Modelled from the spec: a raw wine record (§4.1, §6) — the required
fields (identifier, name) may be absent, the four attributes are raw, and
the grape varieties are names to resolve against the grape→compound
table. -/
structure RawWine where
  id : Option String
  name : Option String
  body : RawAttr
  acidity : RawAttr
  tannin : RawAttr
  sweetness : RawAttr
  varieties : List String
  deriving DecidableEq

/-- Modelled from the spec (§7): `EmptyDatasetError` — no usable records
at all, fatal to knowledge-base construction. -/
inductive BuildError where
  | emptyDataset
  deriving DecidableEq, Repr

/-- A logged `DataIntegrityError`: the index of the excluded record. -/
structure RecordError where
  index : Nat
  deriving DecidableEq, Repr

/-- Modelled from the spec (§4.1): resolving one raw record. A record
missing a required field (identifier or name) yields `none` — a
`DataIntegrityError` for that record only. Otherwise each grape variety
is resolved against the grape→compound table — an unresolved variety is
skipped, not an error — and the attributes are normalized. -/
def buildWine (grapeTable : List (String × Finset String)) (r : RawWine) :
    Option Wine :=
  match r.id, r.name with
  | some i, some n =>
    some { id := i
           name := n
           body := normalizeAttr r.body
           acidity := normalizeAttr r.acidity
           tannin := normalizeAttr r.tannin
           sweetness := normalizeAttr r.sweetness
           compounds := r.varieties.foldr (fun v acc =>
             match grapeTable.lookup v with
             | some cs => cs ∪ acc
             | none => acc) ∅ }
  | _, _ => none

/-- Modelled from the spec (§4.1, §7): knowledge-base construction.
Per-record failures are collected and logged, never thrown; construction
fails — with `EmptyDatasetError` — only when no usable record remains. -/
def build (grapeTable : List (String × Finset String)) (raws : List RawWine) :
    Except BuildError (List Wine × List RecordError) :=
  let wines := raws.filterMap (buildWine grapeTable)
  let errors := raws.enum.filterMap fun p =>
    if (buildWine grapeTable p.2).isNone then some ⟨p.1⟩ else none
  if wines.isEmpty then Except.error BuildError.emptyDataset
  else Except.ok (wines, errors)

/-- Every value `categoryScale.lookup` can return is on the 1–5 scale. -/
theorem categoryScale_lookup_range (s : String) (n : Nat)
    (h : categoryScale.lookup s = some n) : 1 ≤ n ∧ n ≤ 5 := by
  simp only [categoryScale, List.lookup] at h
  repeat' split at h
  all_goals simp_all
  all_goals omega

/-- C4: normalization always lands on the 1–5 scale, missing and
unmappable values resolve to the neutral default 3, and every wine that
knowledge-base construction produces has all four attributes in [1,5]. -/
theorem normalizeAttr_range (grapeTable : List (String × Finset String))
    (raws : List RawWine) :
    (∀ r : RawAttr, 1 ≤ normalizeAttr r ∧ normalizeAttr r ≤ 5) ∧
    normalizeAttr RawAttr.missing = 3 ∧
    (∀ v : Int, ¬ (0 ≤ v ∧ v ≤ 100) → normalizeAttr (RawAttr.numeric v) = 3) ∧
    (∀ s : String, categoryScale.lookup s = none →
      normalizeAttr (RawAttr.category s) = 3) ∧
    (∀ wines errors, build grapeTable raws = Except.ok (wines, errors) →
      ∀ w ∈ wines, attrsInRange w) := by
  have hrange : ∀ r : RawAttr, 1 ≤ normalizeAttr r ∧ normalizeAttr r ≤ 5 := by
    intro r
    match r with
    | RawAttr.missing => exact ⟨by norm_num [normalizeAttr], by norm_num [normalizeAttr]⟩
    | RawAttr.numeric v =>
      by_cases h : 0 ≤ v ∧ v ≤ 100
      · have hv : v.toNat ≤ 100 := by omega
        simp only [normalizeAttr, if_pos h]
        omega
      · simp only [normalizeAttr, if_neg h]
        omega
    | RawAttr.category s =>
      cases hl : categoryScale.lookup s with
      | none => simp [normalizeAttr, hl]
      | some n =>
        have := categoryScale_lookup_range s n hl
        simp only [normalizeAttr, hl]
        omega
  refine ⟨hrange, rfl, fun v hv => by simp [normalizeAttr, hv], fun s hs => by
    simp [normalizeAttr, hs], ?_⟩
  intro wines errors hok w hw
  have hwines : wines = raws.filterMap (buildWine grapeTable) := by
    simp only [build] at hok
    split at hok
    · exact absurd hok (by simp)
    · exact (congrArg Prod.fst (Except.ok.inj hok)).symm
  subst hwines
  obtain ⟨r, _, hr⟩ := List.mem_filterMap.mp hw
  match hid : r.id, hname : r.name with
  | some i, some n =>
    simp only [buildWine, hid, hname, Option.some.injEq] at hr
    subst hr
    refine ⟨?_, ?_, ?_, ?_, ?_, ?_, ?_, ?_⟩ <;>
      first
        | exact (hrange r.body).1 | exact (hrange r.body).2
        | exact (hrange r.acidity).1 | exact (hrange r.acidity).2
        | exact (hrange r.tannin).1 | exact (hrange r.tannin).2
        | exact (hrange r.sweetness).1 | exact (hrange r.sweetness).2
  | none, _ => simp [buildWine, hid] at hr
  | some _, none => simp [buildWine, hid, hname] at hr

/-- C8: a record missing a required raw field is excluded and logged while
the remaining records are still processed; construction fails — with
`EmptyDatasetError` — exactly when no usable record remains. -/
theorem build_skips_bad_records (grapeTable : List (String × Finset String))
    (raws : List RawWine) :
    (∀ r : RawWine, buildWine grapeTable r = none ↔ (r.id = none ∨ r.name = none)) ∧
    (build grapeTable raws = Except.error BuildError.emptyDataset ↔
      raws.filterMap (buildWine grapeTable) = []) ∧
    (∀ wines errors, build grapeTable raws = Except.ok (wines, errors) →
      wines ≠ [] ∧
      (∀ r ∈ raws, ∀ w, buildWine grapeTable r = some w → w ∈ wines) ∧
      (∀ p ∈ raws.enum, buildWine grapeTable p.2 = none →
        RecordError.mk p.1 ∈ errors)) := by
  refine ⟨?_, ?_, ?_⟩
  · intro r
    match hid : r.id, hname : r.name with
    | some i, some n => simp [buildWine, hid, hname]
    | none, _ => simp [buildWine, hid]
    | some i, none => simp [buildWine, hid, hname]
  · simp only [build]
    split
    next hempty => simpa using List.isEmpty_iff.mp hempty
    next hempty =>
      constructor
      · intro h
        exact absurd h (by simp)
      · intro h
        exact absurd (List.isEmpty_iff.mpr h) (by simpa using hempty)
  · intro wines errors hok
    simp only [build] at hok
    split at hok
    · exact absurd hok (by simp)
    next hempty =>
      obtain ⟨hwines, herrors⟩ := Prod.mk.injEq .. ▸ Except.ok.inj hok
      refine ⟨?_, ?_, ?_⟩
      · intro hnil
        rw [← hwines] at hnil
        exact absurd (List.isEmpty_iff.mpr hnil) (by simpa using hempty)
      · intro r hr w hw
        rw [← hwines]
        exact List.mem_filterMap.mpr ⟨r, hr, hw⟩
      · intro p hp hnone
        rw [← herrors]
        refine List.mem_filterMap.mpr ⟨p, hp, ?_⟩
        simp [hnone]

/-! ## Similarity Analyzer (spec §4.4) -/

/-- Modelled from the spec (§4.4): compound-set Jaccard similarity — the
ratio of the intersection and union cardinalities; two identical sets,
including two empty ones, have similarity 1. -/
def jaccard (s t : Finset String) : ℚ :=
  if (s ∪ t).card = 0 then 1 else ((s ∩ t).card : ℚ) / ((s ∪ t).card : ℚ)

/-- Absolute difference of two normalized attributes, as a rational. -/
def attrDiff (a b : Nat) : ℚ := |(a : ℚ) - (b : ℚ)|

/-- Modelled from the spec (§4.4): normalized attribute-vector distance —
the Manhattan distance over the four normalized attributes, scaled into
[0,1] by its maximum 16 (four coordinates, each differing by at most 4 on
the 1–5 scale). -/
def attrDistance (a b : Wine) : ℚ :=
  (attrDiff a.body b.body + attrDiff a.acidity b.acidity +
    attrDiff a.tannin b.tannin + attrDiff a.sweetness b.sweetness) / 16

/-- Modelled from the spec (§4.4): attribute-vector closeness,
1 − normalized distance. -/
def attrCloseness (a b : Wine) : ℚ := 1 - attrDistance a b

/-- Modelled from the spec (§4.4, §6): the externally supplied similarity
weights. -/
structure SimilarityConfig where
  compoundWeight : ℚ
  attributeWeight : ℚ
  deriving DecidableEq

/-- Modelled from the spec (§4.4): the wine-wine similarity score —
weighted combination of compound-set Jaccard similarity and attribute
closeness. -/
def similarity (cfg : SimilarityConfig) (a b : Wine) : ℚ :=
  cfg.compoundWeight * jaccard a.compounds b.compounds +
    cfg.attributeWeight * attrCloseness a b

/-- Modelled from the spec (§3): a `SimilarityPair` — the two wine
identifiers with the canonical (lower identifier first) ordering, the
shared-compound count, attribute distance, score and threshold flag. -/
structure SimilarityPair where
  wineA : String
  wineB : String
  sharedCount : Nat
  attrDist : ℚ
  score : ℚ
  aboveThreshold : Bool
  deriving DecidableEq

/-- The canonical identifier pair: lower identifier first. -/
def canonPair (x y : String) : String × String :=
  if x ≤ y then (x, y) else (y, x)

/-- Modelled from the spec (§4.4): the emitted record for one unordered
pair of wines. -/
def mkSimilarityPair (cfg : SimilarityConfig) (threshold : ℚ) (a b : Wine) :
    SimilarityPair :=
  { wineA := (canonPair a.id b.id).1
    wineB := (canonPair a.id b.id).2
    sharedCount := (a.compounds ∩ b.compounds).card
    attrDist := attrDistance a b
    score := similarity cfg a b
    aboveThreshold := decide (threshold ≤ similarity cfg a b) }

/-- All unordered combinations of two distinct positions of the list,
each once. -/
def allPairs : List Wine → List (Wine × Wine)
  | [] => []
  | w :: ws => ws.map (fun v => (w, v)) ++ allPairs ws

/-- Modelled from the spec (§4.4): `findSimilar` — enumerate all unordered
combinations of two distinct wines, emit those whose score reaches the
threshold. -/
def findSimilar (cfg : SimilarityConfig) (threshold : ℚ) (kb : List Wine) :
    List SimilarityPair :=
  ((allPairs kb).map fun p => mkSimilarityPair cfg threshold p.1 p.2).filter
    (·.aboveThreshold)

/-- Both members of an enumerated pair come from the list. -/
theorem allPairs_mem (kb : List Wine) (p : Wine × Wine) (hp : p ∈ allPairs kb) :
    p.1 ∈ kb ∧ p.2 ∈ kb := by
  induction kb with
  | nil => cases hp
  | cons w ws ih =>
    rcases List.mem_append.mp hp with h | h
    · obtain ⟨v, hv, rfl⟩ := List.mem_map.mp h
      exact ⟨List.mem_cons_self _ _, List.mem_cons_of_mem _ hv⟩
    · obtain ⟨h1, h2⟩ := ih h
      exact ⟨List.mem_cons_of_mem _ h1, List.mem_cons_of_mem _ h2⟩

/-- Over a knowledge base with distinct identifiers, an enumerated pair's
identifiers differ. -/
theorem allPairs_id_ne (kb : List Wine) (hnodup : (kb.map Wine.id).Nodup) :
    ∀ p ∈ allPairs kb, p.1.id ≠ p.2.id := by
  induction kb with
  | nil => intro p hp; cases hp
  | cons w ws ih =>
    rw [List.map_cons, List.nodup_cons] at hnodup
    obtain ⟨hw, hws⟩ := hnodup
    intro p hp
    rcases List.mem_append.mp hp with h | h
    · obtain ⟨v, hv, rfl⟩ := List.mem_map.mp h
      intro hid
      exact hw (hid ▸ List.mem_map.mpr ⟨v, hv, rfl⟩)
    · exact ih hws p h

/-- `canonPair` of two different identifiers is strictly ordered. -/
theorem canonPair_lt (x y : String) (hne : x ≠ y) :
    (canonPair x y).1 < (canonPair x y).2 := by
  unfold canonPair
  split
  next h => exact lt_of_le_of_ne h hne
  next h => exact lt_of_not_le h

/-- `canonPair x y` is `(x, y)` or `(y, x)`. -/
theorem canonPair_cases (x y : String) :
    canonPair x y = (x, y) ∨ canonPair x y = (y, x) := by
  unfold canonPair
  split
  · exact Or.inl rfl
  · exact Or.inr rfl

/-- With a fixed first identifier that differs from both second
identifiers, `canonPair` is injective in the second identifier. -/
theorem canonPair_inj (x y z : String) (hy : y ≠ x) (_hz : z ≠ x)
    (h : canonPair x y = canonPair x z) : y = z := by
  unfold canonPair at h
  split at h <;> split at h <;>
    simp only [Prod.mk.injEq] at h <;>
      obtain ⟨h1, h2⟩ := h
  all_goals first
    | exact h1
    | exact h2
    | exact absurd h1 hy
    | exact absurd h2 hy

/-- Over a knowledge base with distinct identifiers, the canonical
identifier pairs of the enumerated combinations are pairwise distinct:
each unordered pair occurs at most once. -/
theorem allPairs_canonPairs_nodup (kb : List Wine)
    (hnodup : (kb.map Wine.id).Nodup) :
    ((allPairs kb).map fun p => canonPair p.1.id p.2.id).Nodup := by
  induction kb with
  | nil => simp [allPairs]
  | cons w ws ih =>
    rw [List.map_cons, List.nodup_cons] at hnodup
    obtain ⟨hw, hws⟩ := hnodup
    rw [allPairs, List.map_append, List.nodup_append]
    refine ⟨?_, ih hws, ?_⟩
    · rw [List.map_map]
      have hcomp : ((fun p : Wine × Wine => canonPair p.1.id p.2.id) ∘ fun v => (w, v)) =
          fun v => canonPair w.id v.id := rfl
      rw [hcomp]
      refine List.Nodup.map_on ?_ (hws.of_map Wine.id)
      intro x hx y hy hxy
      have hxid : x.id ≠ w.id := fun h => hw (h ▸ List.mem_map.mpr ⟨x, hx, rfl⟩)
      have hyid : y.id ≠ w.id := fun h => hw (h ▸ List.mem_map.mpr ⟨y, hy, rfl⟩)
      have hid : x.id = y.id := canonPair_inj w.id x.id y.id hxid hyid hxy
      exact List.inj_on_of_nodup_map hws hx hy hid
    · intro e he he2
      obtain ⟨p, hp, hpeq⟩ := List.mem_map.mp he
      obtain ⟨v, hv, rfl⟩ := List.mem_map.mp hp
      obtain ⟨q, hq, hqeq⟩ := List.mem_map.mp he2
      have hq1 : q.1.id ∈ ws.map Wine.id :=
        List.mem_map.mpr ⟨q.1, (allPairs_mem ws q hq).1, rfl⟩
      have hq2 : q.2.id ∈ ws.map Wine.id :=
        List.mem_map.mpr ⟨q.2, (allPairs_mem ws q hq).2, rfl⟩
      have hveq : canonPair w.id v.id = canonPair q.1.id q.2.id :=
        hpeq.trans hqeq.symm
      have hwin : w.id = q.1.id ∨ w.id = q.2.id := by
        rcases canonPair_cases w.id v.id with hcv | hcv <;>
          rcases canonPair_cases q.1.id q.2.id with hcq | hcq <;>
            rw [hcv, hcq] at hveq <;> injection hveq with h1 h2
        · exact Or.inl h1
        · exact Or.inr h1
        · exact Or.inr h2
        · exact Or.inl h2
      rcases hwin with h | h
      · exact hw (h ▸ hq1)
      · exact hw (h ▸ hq2)

/-- C3: wine-wine similarity is symmetric, and over a knowledge base with
distinct identifiers `findSimilar` emits each unordered pair at most
once, in canonical order (lower identifier strictly first) — so never
both (A,B) and (B,A). -/
theorem similarity_symm_canonical (cfg : SimilarityConfig) (threshold : ℚ)
    (kb : List Wine) (hnodup : (kb.map Wine.id).Nodup) :
    (∀ a b, similarity cfg a b = similarity cfg b a) ∧
    (∀ p ∈ findSimilar cfg threshold kb, p.wineA < p.wineB) ∧
    ((findSimilar cfg threshold kb).map fun p => (p.wineA, p.wineB)).Nodup ∧
    (∀ p ∈ findSimilar cfg threshold kb, ∀ q ∈ findSimilar cfg threshold kb,
      ¬ (p.wineA = q.wineB ∧ p.wineB = q.wineA)) := by
  have hsymm : ∀ a b : Wine, similarity cfg a b = similarity cfg b a := by
    intro a b
    unfold similarity jaccard attrCloseness attrDistance attrDiff
    rw [Finset.union_comm, Finset.inter_comm,
      abs_sub_comm ((a.body : ℚ)) ((b.body : ℚ)),
      abs_sub_comm ((a.acidity : ℚ)) ((b.acidity : ℚ)),
      abs_sub_comm ((a.tannin : ℚ)) ((b.tannin : ℚ)),
      abs_sub_comm ((a.sweetness : ℚ)) ((b.sweetness : ℚ))]
  have hcanon : ∀ p ∈ findSimilar cfg threshold kb, p.wineA < p.wineB := by
    intro p hp
    obtain ⟨hp1, _⟩ := List.mem_filter.mp hp
    obtain ⟨q, hq, rfl⟩ := List.mem_map.mp hp1
    exact canonPair_lt q.1.id q.2.id (allPairs_id_ne kb hnodup q hq)
  have hnd : ((findSimilar cfg threshold kb).map fun p => (p.wineA, p.wineB)).Nodup := by
    have hsub : ((findSimilar cfg threshold kb).map fun p => (p.wineA, p.wineB)).Sublist
        (((allPairs kb).map fun p => mkSimilarityPair cfg threshold p.1 p.2).map
          fun p => (p.wineA, p.wineB)) :=
      (List.filter_sublist _).map _
    have hall : (((allPairs kb).map fun p => mkSimilarityPair cfg threshold p.1 p.2).map
        fun p => (p.wineA, p.wineB)) =
        (allPairs kb).map fun p => canonPair p.1.id p.2.id := by
      rw [List.map_map]
      rfl
    exact List.Nodup.sublist hsub (hall ▸ allPairs_canonPairs_nodup kb hnodup)
  refine ⟨hsymm, hcanon, hnd, ?_⟩
  rintro p hp q hq ⟨h1, h2⟩
  have hpq := hcanon p hp
  have hq2 := hcanon q hq
  rw [h1, h2] at hpq
  exact absurd (hpq.trans hq2) (lt_irrefl _)

/-- A two-wine knowledge base used by the analyzer witnesses. -/
def witnessKB : List Wine :=
  [{ id := "W1", name := "Wine one", body := 4, acidity := 4, tannin := 4,
     sweetness := 4, compounds := {"c1", "c2"} },
   { id := "W2", name := "Wine two", body := 2, acidity := 2, tannin := 2,
     sweetness := 2, compounds := {"c2", "c3"} }]

/-- The C3 theorem evaluated on a concrete two-wine knowledge base with
distinct identifiers. -/
theorem similarity_symm_canonical_witness :
    (witnessKB.map Wine.id).Nodup ∧
    ((∀ a b, similarity ⟨1/2, 1/2⟩ a b = similarity ⟨1/2, 1/2⟩ b a) ∧
      (∀ p ∈ findSimilar ⟨1/2, 1/2⟩ (4/5) witnessKB, p.wineA < p.wineB) ∧
      ((findSimilar ⟨1/2, 1/2⟩ (4/5) witnessKB).map fun p => (p.wineA, p.wineB)).Nodup ∧
      (∀ p ∈ findSimilar ⟨1/2, 1/2⟩ (4/5) witnessKB,
        ∀ q ∈ findSimilar ⟨1/2, 1/2⟩ (4/5) witnessKB,
          ¬ (p.wineA = q.wineB ∧ p.wineB = q.wineA))) :=
  ⟨by decide, similarity_symm_canonical ⟨1/2, 1/2⟩ (4/5) witnessKB (by decide)⟩

/-- The Jaccard similarity is nonnegative. -/
theorem jaccard_nonneg (s t : Finset String) : 0 ≤ jaccard s t := by
  unfold jaccard
  split
  · norm_num
  · positivity

/-- The Jaccard similarity is at most one. -/
theorem jaccard_le_one (s t : Finset String) : jaccard s t ≤ 1 := by
  unfold jaccard
  split
  next => exact le_refl 1
  next h =>
    have hpos : (0 : ℚ) < ((s ∪ t).card : ℚ) := by
      exact_mod_cast Nat.pos_of_ne_zero h
    rw [div_le_one hpos]
    exact_mod_cast Finset.card_le_card Finset.inter_subset_union

/-- A set has Jaccard similarity one with itself. -/
theorem jaccard_self (s : Finset String) : jaccard s s = 1 := by
  unfold jaccard
  rw [Finset.union_self, Finset.inter_self]
  split
  next => rfl
  next h => rw [div_self (by exact_mod_cast h)]

/-- Attribute difference is nonnegative. -/
theorem attrDiff_nonneg (a b : Nat) : 0 ≤ attrDiff a b := abs_nonneg _

/-- On the 1–5 scale an attribute difference is at most four. -/
theorem attrDiff_le_four (a b : Nat) (ha1 : 1 ≤ a) (ha2 : a ≤ 5)
    (hb1 : 1 ≤ b) (hb2 : b ≤ 5) : attrDiff a b ≤ 4 := by
  have q1 : (1 : ℚ) ≤ (a : ℚ) := by exact_mod_cast ha1
  have q2 : (a : ℚ) ≤ 5 := by exact_mod_cast ha2
  have q3 : (1 : ℚ) ≤ (b : ℚ) := by exact_mod_cast hb1
  have q4 : (b : ℚ) ≤ 5 := by exact_mod_cast hb2
  rw [attrDiff, abs_le]
  constructor <;> linarith

/-- An attribute's difference with itself is zero. -/
theorem attrDiff_self (a : Nat) : attrDiff a a = 0 := by
  rw [attrDiff, sub_self, abs_zero]

/-- C7: with nonnegative weights summing to one and both wines'
attributes on the 1–5 scale, the similarity score lies in [0,1]; two
wines with identical compound sets and identical attributes score exactly
1, marked above any threshold ≤ 1. -/
theorem similarity_bounds (cfg : SimilarityConfig) (threshold : ℚ) (a b : Wine)
    (hcw : 0 ≤ cfg.compoundWeight) (haw : 0 ≤ cfg.attributeWeight)
    (hsum : cfg.compoundWeight + cfg.attributeWeight = 1)
    (ha : attrsInRange a) (hb : attrsInRange b) :
    0 ≤ similarity cfg a b ∧ similarity cfg a b ≤ 1 ∧
    (a.compounds = b.compounds → a.body = b.body → a.acidity = b.acidity →
      a.tannin = b.tannin → a.sweetness = b.sweetness →
      similarity cfg a b = 1 ∧ (threshold ≤ 1 →
        (mkSimilarityPair cfg threshold a b).aboveThreshold = true)) := by
  obtain ⟨hb1, hb2, hac1, hac2, ht1, ht2, hs1, hs2⟩ := ha
  obtain ⟨kb1, kb2, kac1, kac2, kt1, kt2, ks1, ks2⟩ := hb
  have hj0 := jaccard_nonneg a.compounds b.compounds
  have hj1 := jaccard_le_one a.compounds b.compounds
  have d1 := attrDiff_le_four a.body b.body hb1 hb2 kb1 kb2
  have d2 := attrDiff_le_four a.acidity b.acidity hac1 hac2 kac1 kac2
  have d3 := attrDiff_le_four a.tannin b.tannin ht1 ht2 kt1 kt2
  have d4 := attrDiff_le_four a.sweetness b.sweetness hs1 hs2 ks1 ks2
  have e1 := attrDiff_nonneg a.body b.body
  have e2 := attrDiff_nonneg a.acidity b.acidity
  have e3 := attrDiff_nonneg a.tannin b.tannin
  have e4 := attrDiff_nonneg a.sweetness b.sweetness
  have hd0 : 0 ≤ attrDistance a b := by
    unfold attrDistance
    linarith
  have hd1 : attrDistance a b ≤ 1 := by
    unfold attrDistance
    linarith
  have hc0 : 0 ≤ attrCloseness a b := by
    unfold attrCloseness
    linarith
  have hc1 : attrCloseness a b ≤ 1 := by
    unfold attrCloseness
    linarith
  refine ⟨?_, ?_, ?_⟩
  · unfold similarity
    have m1 := mul_nonneg hcw hj0
    have m2 := mul_nonneg haw hc0
    linarith
  · unfold similarity
    have m1 : cfg.compoundWeight * jaccard a.compounds b.compounds ≤
        cfg.compoundWeight * 1 := mul_le_mul_of_nonneg_left hj1 hcw
    have m2 : cfg.attributeWeight * attrCloseness a b ≤
        cfg.attributeWeight * 1 := mul_le_mul_of_nonneg_left hc1 haw
    nlinarith
  · intro hcomp hbody hacid htan hsweet
    have hj : jaccard a.compounds b.compounds = 1 := hcomp ▸ jaccard_self b.compounds
    have hcl : attrCloseness a b = 1 := by
      unfold attrCloseness attrDistance
      rw [hbody, hacid, htan, hsweet, attrDiff_self, attrDiff_self, attrDiff_self,
        attrDiff_self]
      norm_num
    have hsim : similarity cfg a b = 1 := by
      unfold similarity
      rw [hj, hcl]
      linarith
    refine ⟨hsim, fun hth => ?_⟩
    show decide (threshold ≤ similarity cfg a b) = true
    rw [hsim]
    exact decide_eq_true hth

/-- A concrete wine with neutral attributes for the C7 witness. -/
def witnessWine : Wine :=
  { id := "W1", name := "Wine one", body := 3, acidity := 3, tannin := 3,
    sweetness := 3, compounds := {"c1", "c2"} }

/-- The C7 theorem evaluated at equal weights 1/2, threshold 4/5 and a
wine compared with itself. -/
theorem similarity_bounds_witness :
    (0 : ℚ) ≤ (1 / 2 : ℚ) ∧ ((1 / 2 : ℚ) + (1 / 2 : ℚ) = 1) ∧
    attrsInRange witnessWine ∧
    (0 ≤ similarity ⟨1 / 2, 1 / 2⟩ witnessWine witnessWine ∧
      similarity ⟨1 / 2, 1 / 2⟩ witnessWine witnessWine ≤ 1 ∧
      (witnessWine.compounds = witnessWine.compounds →
        witnessWine.body = witnessWine.body →
        witnessWine.acidity = witnessWine.acidity →
        witnessWine.tannin = witnessWine.tannin →
        witnessWine.sweetness = witnessWine.sweetness →
        similarity ⟨1 / 2, 1 / 2⟩ witnessWine witnessWine = 1 ∧
        ((4 / 5 : ℚ) ≤ 1 →
          (mkSimilarityPair ⟨1 / 2, 1 / 2⟩ (4 / 5) witnessWine
            witnessWine).aboveThreshold = true))) :=
  ⟨by norm_num, by norm_num, by decide,
    similarity_bounds ⟨1 / 2, 1 / 2⟩ (4 / 5) witnessWine witnessWine
      (by norm_num) (by norm_num) (by norm_num) (by decide) (by decide)⟩

/-! ## Pairing Scorer (spec §4.3) -/

/-- Modelled from the spec (§4.3, §6, §9): the pairing scorer's
configuration — the two weights and the shared-count normalization are
externally supplied, never hardcoded (the spec leaves the exact
normalization formula open and requires it to be configuration). -/
structure PairingConfig where
  w1 : ℚ
  w2 : ℚ
  normShared : Nat → ℚ

/-- Modelled from the spec (§3): a `PairingResult` — wine reference,
shared-compound count and identifiers, attribute compatibility, pairing
score, and the low-confidence marker. -/
structure PairingResult where
  wineId : String
  sharedCount : Nat
  sharedCompounds : Finset String
  attrCompat : ℚ
  score : ℚ
  lowConfidence : Bool
  deriving DecidableEq

/-- Modelled from the spec (§4.3): scoring one wine against a dish
profile; `ac` is the configurable attribute-compatibility heuristic. The
score is `w1 * normalized(sharedCount) + w2 * attributeCompatibility`,
and the result is flagged low-confidence when the dish profile has no
compounds. -/
def scoreWine (cfg : PairingConfig) (ac : DishProfile → Wine → ℚ)
    (d : DishProfile) (w : Wine) : PairingResult :=
  let shared := d.compounds ∩ w.compounds
  { wineId := w.id
    sharedCount := shared.card
    sharedCompounds := shared
    attrCompat := ac d w
    score := cfg.w1 * cfg.normShared shared.card + cfg.w2 * ac d w
    lowConfidence := decide (d.compounds = ∅) }

/-- Modelled from the spec (§4.3): the deterministic result order —
descending score, ties broken by higher shared-compound count, then by
lexicographic wine identifier. -/
def pairingBefore (a b : PairingResult) : Prop :=
  b.score < a.score ∨ (a.score = b.score ∧
    (b.sharedCount < a.sharedCount ∨ (a.sharedCount = b.sharedCount ∧
      a.wineId ≤ b.wineId)))

instance : DecidableRel pairingBefore := fun a b => by
  unfold pairingBefore
  infer_instance

instance : IsTotal PairingResult pairingBefore := by
  constructor
  intro a b
  rcases lt_trichotomy a.score b.score with h | h | h
  · exact Or.inr (Or.inl h)
  · rcases lt_trichotomy a.sharedCount b.sharedCount with h2 | h2 | h2
    · exact Or.inr (Or.inr ⟨h.symm, Or.inl h2⟩)
    · rcases le_total a.wineId b.wineId with h3 | h3
      · exact Or.inl (Or.inr ⟨h, Or.inr ⟨h2, h3⟩⟩)
      · exact Or.inr (Or.inr ⟨h.symm, Or.inr ⟨h2.symm, h3⟩⟩)
    · exact Or.inl (Or.inr ⟨h, Or.inl h2⟩)
  · exact Or.inl (Or.inl h)

instance : IsTrans PairingResult pairingBefore := by
  constructor
  intro a b c hab hbc
  rcases hab with h1 | ⟨h1eq, h1r⟩
  · rcases hbc with h2 | ⟨h2eq, _⟩
    · exact Or.inl (h2.trans h1)
    · exact Or.inl (h2eq ▸ h1)
  · rcases hbc with h2 | ⟨h2eq, h2r⟩
    · exact Or.inl (by rw [h1eq]; exact h2)
    · refine Or.inr ⟨h1eq.trans h2eq, ?_⟩
      rcases h1r with s1 | ⟨s1eq, w1⟩
      · rcases h2r with s2 | ⟨s2eq, _⟩
        · exact Or.inl (s2.trans s1)
        · exact Or.inl (s2eq ▸ s1)
      · rcases h2r with s2 | ⟨s2eq, w2⟩
        · exact Or.inl (by rw [s1eq]; exact s2)
        · exact Or.inr ⟨s1eq.trans s2eq, w1.trans w2⟩

/-- Modelled from the spec (§4.3): `pairTop` — every wine of the
knowledge base is scored, the results are sorted by the deterministic
order, and the first k are returned. -/
def pairTop (cfg : PairingConfig) (ac : DishProfile → Wine → ℚ)
    (d : DishProfile) (kb : List Wine) (k : Nat) : List PairingResult :=
  (List.insertionSort pairingBefore (kb.map (scoreWine cfg ac d))).take k

/-- C2: `pairTop` is a pure function — two calls with identical inputs
give identical ordered output — and the output is ordered by the
deterministic tie-break: descending score, then higher shared-compound
count, then lexicographic wine identifier. -/
theorem pairTop_deterministic (cfg : PairingConfig) (ac : DishProfile → Wine → ℚ)
    (d : DishProfile) (kb : List Wine) (k : Nat) :
    pairTop cfg ac d kb k = pairTop cfg ac d kb k ∧
    List.Sorted pairingBefore (pairTop cfg ac d kb k) := by
  refine ⟨rfl, ?_⟩
  exact (List.sorted_insertionSort pairingBefore _).sublist (List.take_sublist _ _)

/-- Every result `pairTop` returns is the scoring of some wine of the
knowledge base. -/
theorem pairTop_mem (cfg : PairingConfig) (ac : DishProfile → Wine → ℚ)
    (d : DishProfile) (kb : List Wine) (k : Nat) :
    ∀ r ∈ pairTop cfg ac d kb k, ∃ w ∈ kb, r = scoreWine cfg ac d w := by
  intro r hr
  have hr2 : r ∈ List.insertionSort pairingBefore (kb.map (scoreWine cfg ac d)) :=
    (List.take_sublist _ _).subset hr
  have hr3 : r ∈ kb.map (scoreWine cfg ac d) :=
    (List.perm_insertionSort pairingBefore _).subset hr2
  obtain ⟨w, hw, hweq⟩ := List.mem_map.mp hr3
  exact ⟨w, hw, hweq.symm⟩

/-- C9: on a dish profile with no compounds, `pairTop` still returns
`min k |KB|` results, every result carries the low-confidence marker, and
— the shared-compound term being the same constant for every wine — the
results are ranked purely by descending attribute compatibility (the
attribute weight being positive). -/
theorem pairTop_empty_profile (cfg : PairingConfig) (ac : DishProfile → Wine → ℚ)
    (d : DishProfile) (kb : List Wine) (k : Nat)
    (hd : d.compounds = ∅) (hw2 : 0 < cfg.w2) :
    (pairTop cfg ac d kb k).length = min k kb.length ∧
    (∀ r ∈ pairTop cfg ac d kb k, r.lowConfidence = true) ∧
    List.Sorted (fun a b : PairingResult => b.attrCompat ≤ a.attrCompat)
      (pairTop cfg ac d kb k) := by
  have hscore : ∀ w : Wine, scoreWine cfg ac d w =
      { wineId := w.id
        sharedCount := 0
        sharedCompounds := ∅
        attrCompat := ac d w
        score := cfg.w1 * cfg.normShared 0 + cfg.w2 * ac d w
        lowConfidence := true } := by
    intro w
    unfold scoreWine
    rw [hd]
    simp
  refine ⟨?_, ?_, ?_⟩
  · rw [pairTop, List.length_take,
      (List.perm_insertionSort pairingBefore _).length_eq, List.length_map]
  · intro r hr
    obtain ⟨w, _, rfl⟩ := pairTop_mem cfg ac d kb k r hr
    rw [hscore w]
  · have hsorted := (pairTop_deterministic cfg ac d kb k).2
    refine List.Pairwise.imp_of_mem ?_ hsorted
    intro a b ha hb hab
    obtain ⟨wa, _, rfl⟩ := pairTop_mem cfg ac d kb k a ha
    obtain ⟨wb, _, rfl⟩ := pairTop_mem cfg ac d kb k b hb
    rw [hscore wa, hscore wb] at hab ⊢
    rcases hab with h | ⟨heq, _⟩
    · simp only at h ⊢
      nlinarith
    · simp only at heq ⊢
      nlinarith

/-- A dish profile with no compounds, for the C9 witness. -/
def witnessDish : DishProfile := { name := "mystery dish", compounds := ∅ }

/-- A configuration with externally supplied weights and linear
shared-count normalization, for the C9 witness. -/
def witnessPairingConfig : PairingConfig :=
  { w1 := 1 / 2, w2 := 1 / 2, normShared := fun n => (n : ℚ) / 10 }

/-- The C9 theorem evaluated on a concrete empty-compound dish, the
two-wine knowledge base, acidity as the compatibility heuristic and
k = 3. -/
theorem pairTop_empty_profile_witness :
    witnessDish.compounds = ∅ ∧ 0 < witnessPairingConfig.w2 ∧
    ((pairTop witnessPairingConfig (fun _ w => (w.acidity : ℚ)) witnessDish
        witnessKB 3).length = min 3 witnessKB.length ∧
      (∀ r ∈ pairTop witnessPairingConfig (fun _ w => (w.acidity : ℚ)) witnessDish
        witnessKB 3, r.lowConfidence = true) ∧
      List.Sorted (fun a b : PairingResult => b.attrCompat ≤ a.attrCompat)
        (pairTop witnessPairingConfig (fun _ w => (w.acidity : ℚ)) witnessDish
          witnessKB 3)) :=
  ⟨rfl, by norm_num [witnessPairingConfig],
    pairTop_empty_profile witnessPairingConfig (fun _ w => (w.acidity : ℚ))
      witnessDish witnessKB 3 rfl (by norm_num [witnessPairingConfig])⟩

end CBWPPS
